import Mathlib

/-!
Verification of the "memory" webhook backend (src/python/buy-elephant/now/api.py).

The development shallowly embeds the Python source:

* `clean_text` embeds the Python function `clean_text`
  (`" ".join(''.join(e for e in text.lower() if e.isalnum() or e.isspace()).split())`),
  with the character classifiers `str.lower`, `str.isalnum`, `str.isspace`
  modelled on the ASCII and Russian Cyrillic ranges (the program's domain);
  outside those ranges the model is the identity / `false`.
* `UserSession`, `lookupS`, `updateS`, `handler`, `reset` embed the SQLAlchemy
  model and the two Flask endpoints.  A freshly constructed `UserSession`
  has `state = none`: SQLAlchemy applies the column default
  `'awaiting_original'` only when the row is INSERTed (`insertDefaults`),
  not at object construction.  Python truthiness of the nullable text
  column is `pyTruthy`.
* `lev2` / `fuzz_ratio` model the external similarity library
  (`fuzzywuzzy.fuzz.ratio`), which is not part of this repository.
-/

/-- Model of Python `str.isspace` for a single character: ASCII whitespace
(tab, LF, VT, FF, CR, space). -/
def pyIsSpace (c : Char) : Bool :=
  decide ((0x09 ≤ c.toNat ∧ c.toNat ≤ 0x0D) ∨ c.toNat = 0x20)

/-- Model of Python `str.isalnum` for a single character: ASCII digits and
letters, the Russian Cyrillic letters U+0410..U+044F, and Ё/ё. -/
def pyIsAlnum (c : Char) : Bool :=
  decide ((0x30 ≤ c.toNat ∧ c.toNat ≤ 0x39) ∨
          (0x41 ≤ c.toNat ∧ c.toNat ≤ 0x5A) ∨
          (0x61 ≤ c.toNat ∧ c.toNat ≤ 0x7A) ∨
          (0x410 ≤ c.toNat ∧ c.toNat ≤ 0x44F) ∨
          c.toNat = 0x401 ∨ c.toNat = 0x451)

/-- Model of Python `str.lower` on a single character: lowers ASCII `A`-`Z`,
Cyrillic `А`-`Я` (U+0410..U+042F, +0x20) and `Ё` (U+0401 → U+0451);
identity elsewhere. -/
def pyLower (c : Char) : Char :=
  if 0x41 ≤ c.toNat ∧ c.toNat ≤ 0x5A then Char.ofNat (c.toNat + 0x20)
  else if 0x410 ≤ c.toNat ∧ c.toNat ≤ 0x42F then Char.ofNat (c.toNat + 0x20)
  else if c.toNat = 0x401 then Char.ofNat 0x451
  else c

/-- The character filter of `clean_text`: `e.isalnum() or e.isspace()`. -/
def keepChar (c : Char) : Bool := pyIsAlnum c || pyIsSpace c

/-- Python `str.split()` with no separator: split on runs of whitespace,
dropping empty tokens.  A non-space character starts a new token when the
following character is a space or the end of the string, and otherwise
extends the token that starts at the next character. -/
def words : List Char → List (List Char)
  | [] => []
  | c :: cs =>
    if pyIsSpace c then words cs
    else
      match cs with
      | [] => [[c]]
      | d :: _ =>
        if pyIsSpace d then [c] :: words cs
        else
          match words cs with
          | w :: rest => (c :: w) :: rest
          | [] => [[c]]

/-- Python `" ".join(tokens)`. -/
def joinSpace : List (List Char) → List Char
  | [] => []
  | [w] => w
  | w :: ws => w ++ ' ' :: joinSpace ws

/-- Embedding of the source function `clean_text` on character lists:
lowercase, keep only alphanumeric/whitespace characters, then
`" ".join(....split())`. -/
def clean_textL (l : List Char) : List Char :=
  joinSpace (words ((l.map pyLower).filter keepChar))

/-- Embedding of the source function `clean_text` (`api.py`). -/
def clean_text (s : String) : String :=
  String.mk (clean_textL s.data)

/-- Collapse every maximal run of whitespace into one ASCII space
(spec §4.1 wording): a whitespace character becomes `' '` unless the
collapsed tail already starts with the space standing for its run. -/
def collapseWs : List Char → List Char
  | [] => []
  | c :: cs =>
    if pyIsSpace c then
      if (collapseWs cs).head? = some ' ' then collapseWs cs
      else ' ' :: collapseWs cs
    else c :: collapseWs cs

/-- Drop leading ASCII spaces. -/
def ltrimSp (l : List Char) : List Char := l.dropWhile (fun c => c = ' ')

/-- Drop trailing ASCII spaces. -/
def rtrimSp (l : List Char) : List Char :=
  (l.reverse.dropWhile (fun c => c = ' ')).reverse

/-- The normalizer as the spec (§4.1) words it, for the refinement claim:
lowercase; retain only alphanumeric or whitespace characters; collapse all
runs of whitespace into single ASCII spaces; trim leading/trailing space. -/
def normalizeSpec (s : String) : String :=
  String.mk (rtrimSp (ltrimSp (collapseWs ((s.data.map pyLower).filter keepChar))))

/-- Modelled from the spec: the similarity library (`fuzzywuzzy.fuzz.ratio`)
is external, not code of this repository.  Spec §4.3: "a normalized
edit-distance ratio (Levenshtein-based)".  `lev2` is the Levenshtein
distance with insertion/deletion cost 1 and substitution cost 2 (the
weighting underlying the library's `ratio`). -/
def lev2 : List Char → List Char → Nat
  | [], b => b.length
  | _ :: xs, [] => xs.length + 1
  | x :: xs, y :: ys =>
    if x = y then lev2 xs ys
    else min (1 + lev2 xs (y :: ys)) (min (1 + lev2 (x :: xs) ys) (2 + lev2 xs ys))
termination_by a b => a.length + b.length
decreasing_by
  all_goals simp only [List.length_cons]
  all_goals omega

/-- Modelled from the spec: `fuzz.ratio` as the normalized ratio
`100 * (lensum - lev2) / lensum`, rounded half-up, with
`similarity("","") = 100` (the convention spec §4.3 records). -/
def fuzz_ratio (a b : String) : Nat :=
  let L := a.data.length + b.data.length
  if L = 0 then 100
  else (200 * (L - lev2 a.data b.data) + L) / (2 * L)

/-- Embedding of the SQLAlchemy model `UserSession` (the `session_id` key is
kept as the store key; `id` is an autoincrement surrogate, irrelevant to
behaviour).  Both columns are nullable at the object level; in particular a
freshly constructed object has `state = none` because the column default is
applied only at INSERT. -/
structure UserSession where
  original_text : Option String
  state : Option String
deriving DecidableEq, Repr

/-- Python truthiness of the nullable text column: `None` and `""` are falsy. -/
def pyTruthy : Option String → Bool
  | none => false
  | some s => s ≠ ""

/-- Python `str.strip()` on character lists. -/
def pyStripL (l : List Char) : List Char :=
  ((l.dropWhile pyIsSpace).reverse.dropWhile pyIsSpace).reverse

/-- Python `str.strip()`. -/
def pyStrip (s : String) : String := String.mk (pyStripL s.data)

/-- A button of the response envelope. -/
structure Button where
  title : String
  action_type : String
  label : String
deriving DecidableEq, Repr

/-- The observable JSON response: `response.text`, `response.end_session`,
and the optional `buttons` array. -/
structure Response where
  text : String
  end_session : Bool
  buttons : Option (List Button)
deriving DecidableEq, Repr

/-- The session store: one row per `session_id` (an association list in
insertion order). -/
abbrev Store := List (String × UserSession)

/-- `db_session.query(UserSession).filter_by(session_id=sid).first()`. -/
def lookupS : Store → String → Option UserSession
  | [], _ => none
  | (k, v) :: rest, sid => if k = sid then some v else lookupS rest sid

/-- Committing an UPDATE of the row keyed `sid`. -/
def updateS : Store → String → UserSession → Store
  | [], _, _ => []
  | (k, v) :: rest, sid, s =>
    if k = sid then (k, s) :: updateS rest sid s else (k, v) :: updateS rest sid s

/-- INSERT-time application of the column default: `state` defaults to
`'awaiting_original'` when the attribute was never set. -/
def insertDefaults (s : UserSession) : UserSession :=
  { s with state := some (s.state.getD "awaiting_original") }

/-- The `if/elif/else` dispatch on `session.state` inside `handler`, acting
on the loaded (or freshly constructed) object; returns the possibly mutated
object and the JSON response.  `msg` is the already-stripped user message. -/
def stateDispatch (s : UserSession) (msg : String) : UserSession × Response :=
  if s.state = some "awaiting_original" then
    if !pyTruthy s.original_text then
      ({ original_text := some msg, state := some "awaiting_user_input" },
       { text := "Оригинальный текст сохранён. Теперь расскажите его, как вы запомнили.",
         end_session := false, buttons := none })
    else
      (s, { text := "Вы уже ввели оригинальный текст. Теперь расскажите его, как вы запомнили.",
            end_session := false, buttons := none })
  else if s.state = some "awaiting_user_input" then
    if !pyTruthy s.original_text then
      (s, { text := "Ошибка: Оригинальный текст не найден. Введите текст заново.",
            end_session := false, buttons := none })
    else
      let orig := s.original_text.getD ""
      let sim := fuzz_ratio (clean_text orig) (clean_text msg)
      (s, { text := "Процент совпадения: " ++ toString sim ++ "%\n\n" ++
                    "Оригинальный текст: " ++ orig ++ "\n\n" ++
                    "Ваш текст: " ++ msg,
            end_session := false,
            buttons := some [{ title := "Сбросить", action_type := "text", label := "Сбросить" }] })
  else
    (s, { text := "Произошла ошибка. Попробуйте снова.",
          end_session := false, buttons := none })

/-- Embedding of the `/handler` endpoint: strip the message, short-circuit
on empty, load-or-construct the session, dispatch on its state, and commit
(UPDATE an existing row, or INSERT the new row with column defaults). -/
def handler (store : Store) (session_id user_message : String) : Store × Response :=
  let msg := pyStrip user_message
  if msg = "" then
    (store, { text := "Введите текст для продолжения.", end_session := false, buttons := none })
  else
    match lookupS store session_id with
    | some s =>
      let r := stateDispatch s msg
      (updateS store session_id r.1, r.2)
    | none =>
      let r := stateDispatch { original_text := none, state := none } msg
      (store ++ [(session_id, insertDefaults r.1)], r.2)

/-- Embedding of the `/reset` endpoint. -/
def reset (store : Store) (session_id : String) : Store × Response :=
  match lookupS store session_id with
  | some _ =>
    (updateS store session_id { original_text := none, state := some "awaiting_original" },
     { text := "Данные сброшены. Введите новый текст.", end_session := false, buttons := none })
  | none =>
    (store, { text := "Сессия не найдена. Введите новый текст.", end_session := false, buttons := none })

/-- Store states reachable from the empty store by any sequence of
`/handler` and `/reset` requests. -/
inductive Reachable : Store → Prop
  | empty : Reachable []
  | step_handler (sid msg : String) {st : Store} :
      Reachable st → Reachable (handler st sid msg).1
  | step_reset (sid : String) {st : Store} :
      Reachable st → Reachable (reset st sid).1

theorem toNat_ofNat_valid {n : Nat} (h : n < 0xD800) : (Char.ofNat n).toNat = n := by
  rw [Char.ofNat, dif_pos (Or.inl h)]
  rfl

theorem pyLower_idem (c : Char) : pyLower (pyLower c) = pyLower c := by
  by_cases h1 : 0x41 ≤ c.toNat ∧ c.toNat ≤ 0x5A
  · have hv : pyLower c = Char.ofNat (c.toNat + 0x20) := by rw [pyLower, if_pos h1]
    have ht : (Char.ofNat (c.toNat + 0x20)).toNat = c.toNat + 0x20 :=
      toNat_ofNat_valid (by omega)
    rw [hv, pyLower, ht, if_neg (by omega), if_neg (by omega), if_neg (by omega)]
  · by_cases h2 : 0x410 ≤ c.toNat ∧ c.toNat ≤ 0x42F
    · have hv : pyLower c = Char.ofNat (c.toNat + 0x20) := by
        rw [pyLower, if_neg h1, if_pos h2]
      have ht : (Char.ofNat (c.toNat + 0x20)).toNat = c.toNat + 0x20 :=
        toNat_ofNat_valid (by omega)
      rw [hv, pyLower, ht, if_neg (by omega), if_neg (by omega), if_neg (by omega)]
    · by_cases h3 : c.toNat = 0x401
      · have hv : pyLower c = Char.ofNat 0x451 := by
          rw [pyLower, if_neg h1, if_neg h2, if_pos h3]
        have ht : (Char.ofNat 0x451).toNat = 0x451 := toNat_ofNat_valid (by omega)
        rw [hv, pyLower, ht, if_neg (by omega), if_neg (by omega), if_neg (by omega)]
      · have hv : pyLower c = c := by rw [pyLower, if_neg h1, if_neg h2, if_neg h3]
        rw [hv, hv]

theorem pyLower_space : pyLower ' ' = ' ' := by decide

theorem pyIsSpace_space : pyIsSpace ' ' = true := by decide

theorem keepChar_space : keepChar ' ' = true := by decide

theorem ne_space_of_not_space {c : Char} (h : pyIsSpace c = false) : c ≠ ' ' := by
  intro hc
  rw [hc] at h
  exact absurd h (by decide)

theorem ltrimSp_nil : ltrimSp [] = [] := rfl

theorem ltrimSp_cons_space (x : List Char) : ltrimSp (' ' :: x) = ltrimSp x := by
  simp [ltrimSp, List.dropWhile_cons]

theorem ltrimSp_cons_ne {c : Char} (h : c ≠ ' ') (x : List Char) :
    ltrimSp (c :: x) = c :: x := by
  simp [ltrimSp, List.dropWhile_cons, h]

theorem rtrimSp_nil : rtrimSp [] = [] := rfl

theorem rtrimSp_cons_ne {c : Char} (h : c ≠ ' ') (x : List Char) :
    rtrimSp (c :: x) = c :: rtrimSp x := by
  simp only [rtrimSp, List.reverse_cons, List.dropWhile_append]
  by_cases he : (x.reverse.dropWhile fun d => decide (d = ' ')).isEmpty
  · rw [if_pos he, List.isEmpty_iff.mp he, List.reverse_nil, List.dropWhile_cons]
    simp [h]
  · rw [if_neg he, List.reverse_append]
    simp

theorem rtrimSp_cons_of_ne_nil {c : Char} {x : List Char} (h : rtrimSp x ≠ []) :
    rtrimSp (c :: x) = c :: rtrimSp x := by
  simp only [rtrimSp, List.reverse_cons, List.dropWhile_append]
  by_cases he : (x.reverse.dropWhile fun d => decide (d = ' ')).isEmpty
  · exact absurd (by simp [rtrimSp, List.isEmpty_iff.mp he]) h
  · rw [if_neg he, List.reverse_append]
    simp

theorem dropWhile_head_false {p : Char → Bool} :
    ∀ (l : List Char) {x : Char} {xs : List Char}, l.dropWhile p = x :: xs → p x = false := by
  intro l
  induction l with
  | nil => intro x xs h; exact absurd h (by simp)
  | cons c cs ih =>
    intro x xs h
    rw [List.dropWhile_cons] at h
    by_cases hc : p c
    · exact ih (by rwa [if_pos hc] at h)
    · rw [if_neg hc] at h
      cases h
      exact Bool.eq_false_iff.mpr hc

theorem words_cons_space {c : Char} (h : pyIsSpace c = true) (cs : List Char) :
    words (c :: cs) = words cs := by
  simp [words, h]

theorem words_ne_nil {e : Char} (h : pyIsSpace e = false) (er : List Char) :
    words (e :: er) ≠ [] := by
  cases er with
  | nil => simp [words, h]
  | cons d ds =>
    simp only [words, h, Bool.false_eq_true, if_false]
    split
    · simp
    · split <;> simp

theorem words_dropWhile_space (l : List Char) :
    words (l.dropWhile pyIsSpace) = words l := by
  induction l with
  | nil => rfl
  | cons c cs ih =>
    rw [List.dropWhile_cons]
    by_cases h : pyIsSpace c
    · rw [if_pos h, ih, words_cons_space h]
    · rw [if_neg h]

theorem joinSpace_cons_cons (c : Char) (w : List Char) (rest : List (List Char)) :
    joinSpace ((c :: w) :: rest) = c :: joinSpace (w :: rest) := by
  cases rest with
  | nil => rfl
  | cons w2 ws => rfl

theorem joinSpace_cons_of_ne_nil {ws : List (List Char)} (h : ws ≠ []) (w : List Char) :
    joinSpace (w :: ws) = w ++ ' ' :: joinSpace ws := by
  cases ws with
  | nil => exact absurd rfl h
  | cons w2 rest => rfl

theorem collapseWs_cons_nonspace {c : Char} (h : pyIsSpace c = false) (cs : List Char) :
    collapseWs (c :: cs) = c :: collapseWs cs := by
  simp [collapseWs, h]

theorem collapseWs_space_head :
    ∀ (cs : List Char) {c : Char}, pyIsSpace c = true →
      collapseWs (c :: cs) = ' ' :: collapseWs (cs.dropWhile pyIsSpace) := by
  intro cs
  induction cs with
  | nil => intro c h; simp [collapseWs, h]
  | cons d ds ih =>
    intro c h
    by_cases hd : pyIsSpace d
    · have hrec := ih (c := d) hd
      rw [show (d :: ds).dropWhile pyIsSpace = ds.dropWhile pyIsSpace by
            rw [List.dropWhile_cons, if_pos hd]]
      conv_lhs => rw [collapseWs]
      rw [if_pos h, hrec, List.head?_cons, if_pos rfl]
    · have hd' : pyIsSpace d = false := Bool.eq_false_iff.mpr hd
      have hne : d ≠ ' ' := ne_space_of_not_space hd'
      rw [show (d :: ds).dropWhile pyIsSpace = d :: ds by
            rw [List.dropWhile_cons, if_neg hd]]
      conv_lhs => rw [collapseWs]
      rw [if_pos h, collapseWs_cons_nonspace hd', List.head?_cons,
        if_neg (show ¬ (some d = some ' ') by simp [hne]),
        ← collapseWs_cons_nonspace hd']

theorem joinSpace_words_eq (n : Nat) :
    ∀ l : List Char, l.length ≤ n →
      joinSpace (words l) = rtrimSp (ltrimSp (collapseWs l)) := by
  induction n with
  | zero =>
    intro l h
    rw [List.length_eq_zero.mp (Nat.le_zero.mp h)]
    rfl
  | succ n ih =>
    intro l hl
    cases l with
    | nil => rfl
    | cons c cs =>
      have hcs : cs.length ≤ n := by
        simp only [List.length_cons] at hl; omega
      by_cases hc : pyIsSpace c
      · rw [words_cons_space hc, collapseWs_space_head cs hc, ltrimSp_cons_space,
          ← words_dropWhile_space cs]
        exact ih (cs.dropWhile pyIsSpace)
          (le_trans (List.Sublist.length_le (List.dropWhile_sublist pyIsSpace)) hcs)
      · have hc' : pyIsSpace c = false := Bool.eq_false_iff.mpr hc
        have hcne : c ≠ ' ' := ne_space_of_not_space hc'
        rw [collapseWs_cons_nonspace hc', ltrimSp_cons_ne hcne, rtrimSp_cons_ne hcne]
        cases cs with
        | nil =>
          have h1 : words [c] = [[c]] := by simp [words, hc']
          rw [h1]
          rfl
        | cons d ds =>
          have hds : ds.length ≤ n := by
            simp only [List.length_cons] at hcs; omega
          by_cases hd : pyIsSpace d
          · have hw : words (c :: d :: ds) = [c] :: words (d :: ds) := by
              simp [words, hc', hd]
            have hcoll := collapseWs_space_head ds (c := d) hd
            have hwd : words (d :: ds) = words (ds.dropWhile pyIsSpace) := by
              rw [words_cons_space hd, ← words_dropWhile_space ds]
            rw [hw, hcoll]
            cases hds2 : ds.dropWhile pyIsSpace with
            | nil =>
              rw [hwd, hds2]
              show joinSpace [[c]] = c :: rtrimSp [' ']
              have : rtrimSp [' '] = [] := by decide
              rw [this]
              rfl
            | cons e er =>
              have he : pyIsSpace e = false := dropWhile_head_false ds hds2
              have hene : e ≠ ' ' := ne_space_of_not_space he
              have hwne : words (d :: ds) ≠ [] := by
                rw [hwd, hds2]; exact words_ne_nil he er
              rw [joinSpace_cons_of_ne_nil hwne]
              have hihds2 : joinSpace (words (e :: er)) =
                  rtrimSp (ltrimSp (collapseWs (e :: er))) := by
                apply ih
                have h1 : (e :: er).length ≤ ds.length := by
                  rw [← hds2]
                  exact List.Sublist.length_le (List.dropWhile_sublist pyIsSpace)
                omega
              rw [collapseWs_cons_nonspace he, ltrimSp_cons_ne hene,
                ← collapseWs_cons_nonspace he] at hihds2
              have hrne : rtrimSp (collapseWs (e :: er)) ≠ [] := by
                rw [collapseWs_cons_nonspace he, rtrimSp_cons_ne hene]
                simp
              rw [rtrimSp_cons_of_ne_nil hrne, hwd, hds2, hihds2]
              rfl
          · have hd' : pyIsSpace d = false := Bool.eq_false_iff.mpr hd
            have hdne : d ≠ ' ' := ne_space_of_not_space hd'
            obtain ⟨w, rest, hw⟩ : ∃ w rest, words (d :: ds) = w :: rest := by
              cases hq : words (d :: ds) with
              | nil => exact absurd hq (words_ne_nil hd' ds)
              | cons w rest => exact ⟨w, rest, rfl⟩
            have hw2 : words (c :: d :: ds) = (c :: w) :: rest := by
              conv_lhs => rw [words]
              rw [if_neg hc]
              show (if pyIsSpace d = true then [c] :: words (d :: ds)
                    else match words (d :: ds) with
                         | w :: rest => (c :: w) :: rest
                         | [] => [[c]]) = (c :: w) :: rest
              rw [if_neg hd, hw]
            rw [hw2, joinSpace_cons_cons, ← hw]
            have hihcs : joinSpace (words (d :: ds)) =
                rtrimSp (ltrimSp (collapseWs (d :: ds))) := ih (d :: ds) hcs
            rw [collapseWs_cons_nonspace hd', ltrimSp_cons_ne hdne,
              ← collapseWs_cons_nonspace hd'] at hihcs
            rw [hihcs]

theorem words_cons_cons_space {c d : Char} (hc : pyIsSpace c = false)
    (hd : pyIsSpace d = true) (ds : List Char) :
    words (c :: d :: ds) = [c] :: words (d :: ds) := by
  conv_lhs => rw [words]
  rw [if_neg (show ¬ pyIsSpace c = true by simp [hc])]
  show (if pyIsSpace d = true then [c] :: words (d :: ds)
        else match words (d :: ds) with
             | w :: rest => (c :: w) :: rest
             | [] => [[c]]) = [c] :: words (d :: ds)
  rw [if_pos hd]

theorem words_cons_cons_nonspace {c d : Char} {ds : List Char} {w : List Char}
    {rest : List (List Char)} (hc : pyIsSpace c = false) (hd : pyIsSpace d = false)
    (hw : words (d :: ds) = w :: rest) :
    words (c :: d :: ds) = (c :: w) :: rest := by
  conv_lhs => rw [words]
  rw [if_neg (show ¬ pyIsSpace c = true by simp [hc])]
  show (if pyIsSpace d = true then [c] :: words (d :: ds)
        else match words (d :: ds) with
             | w :: rest => (c :: w) :: rest
             | [] => [[c]]) = (c :: w) :: rest
  rw [if_neg (show ¬ pyIsSpace d = true by simp [hd]), hw]

theorem mem_words : ∀ (l : List Char), ∀ w ∈ words l,
    w ≠ [] ∧ ∀ x ∈ w, x ∈ l ∧ pyIsSpace x = false := by
  intro l
  induction l with
  | nil => intro w hw; exact absurd hw (by simp [words])
  | cons c cs ih =>
    intro w hw
    by_cases hc : pyIsSpace c
    · rw [words_cons_space hc] at hw
      obtain ⟨hne, hx⟩ := ih w hw
      exact ⟨hne, fun x hxw => ⟨List.mem_cons_of_mem c (hx x hxw).1, (hx x hxw).2⟩⟩
    · have hc' : pyIsSpace c = false := Bool.eq_false_iff.mpr hc
      cases cs with
      | nil =>
        have h1 : words [c] = [[c]] := by simp [words, hc']
        rw [h1] at hw
        rcases List.mem_singleton.mp hw with rfl
        refine ⟨by simp, fun x hx => ?_⟩
        rcases List.mem_singleton.mp hx with rfl
        exact ⟨List.mem_singleton_self x, hc'⟩
      | cons d ds =>
        by_cases hd : pyIsSpace d
        · rw [words_cons_cons_space hc' hd ds] at hw
          rcases List.mem_cons.mp hw with rfl | hw2
          · refine ⟨by simp, fun x hx => ?_⟩
            rcases List.mem_singleton.mp hx with rfl
            exact ⟨List.mem_cons_self x (d :: ds), hc'⟩
          · obtain ⟨hne, hx⟩ := ih w hw2
            exact ⟨hne, fun x hxw => ⟨List.mem_cons_of_mem c (hx x hxw).1, (hx x hxw).2⟩⟩
        · have hd' : pyIsSpace d = false := Bool.eq_false_iff.mpr hd
          obtain ⟨w1, rest, hq⟩ : ∃ w1 rest, words (d :: ds) = w1 :: rest := by
            cases hq : words (d :: ds) with
            | nil => exact absurd hq (words_ne_nil hd' ds)
            | cons w1 rest => exact ⟨w1, rest, rfl⟩
          rw [words_cons_cons_nonspace hc' hd' hq] at hw
          rcases List.mem_cons.mp hw with rfl | hw2
          · have h1 : w1 ∈ words (d :: ds) := by rw [hq]; exact List.mem_cons_self w1 rest
            obtain ⟨-, hx1⟩ := ih w1 h1
            refine ⟨by simp, fun x hx => ?_⟩
            rcases List.mem_cons.mp hx with rfl | hxw
            · exact ⟨List.mem_cons_self x (d :: ds), hc'⟩
            · exact ⟨List.mem_cons_of_mem c (hx1 x hxw).1, (hx1 x hxw).2⟩
          · have h1 : w ∈ words (d :: ds) := by
              rw [hq]; exact List.mem_cons_of_mem w1 hw2
            obtain ⟨hne, hx⟩ := ih w h1
            exact ⟨hne, fun x hxw => ⟨List.mem_cons_of_mem c (hx x hxw).1, (hx x hxw).2⟩⟩

theorem mem_joinSpace : ∀ (ws : List (List Char)) (x : Char), x ∈ joinSpace ws →
    x = ' ' ∨ ∃ w ∈ ws, x ∈ w := by
  intro ws
  induction ws with
  | nil => intro x hx; exact absurd hx (by simp [joinSpace])
  | cons w ws ih =>
    intro x hx
    cases ws with
    | nil =>
      right
      exact ⟨w, List.mem_singleton_self w, hx⟩
    | cons w2 ws2 =>
      rw [joinSpace_cons_of_ne_nil (by simp) w] at hx
      rcases List.mem_append.mp hx with hx1 | hx2
      · exact Or.inr ⟨w, List.mem_cons_self w (w2 :: ws2), hx1⟩
      · rcases List.mem_cons.mp hx2 with rfl | hx3
        · exact Or.inl rfl
        · rcases ih x hx3 with h | ⟨w3, hw3, hxw3⟩
          · exact Or.inl h
          · exact Or.inr ⟨w3, List.mem_cons_of_mem w hw3, hxw3⟩

theorem words_append_word : ∀ (w : List Char), w ≠ [] → (∀ x ∈ w, pyIsSpace x = false) →
    ∀ rest : List Char, words (w ++ ' ' :: rest) = w :: words rest := by
  intro w
  induction w with
  | nil => intro h; exact absurd rfl h
  | cons x xs ih =>
    intro _ hns rest
    have hx : pyIsSpace x = false := hns x (List.mem_cons_self x xs)
    cases xs with
    | nil =>
      show words (x :: ' ' :: rest) = [x] :: words rest
      rw [words_cons_cons_space hx pyIsSpace_space rest, words_cons_space pyIsSpace_space]
    | cons y ys =>
      have hy : pyIsSpace y = false :=
        hns y (List.mem_cons_of_mem x (List.mem_cons_self y ys))
      have hih := ih (by simp) (fun z hz => hns z (List.mem_cons_of_mem x hz)) rest
      show words (x :: (y :: ys ++ ' ' :: rest)) = (x :: y :: ys) :: words rest
      rw [List.cons_append] at hih ⊢
      exact words_cons_cons_nonspace hx hy hih

theorem words_no_sep : ∀ (w : List Char), w ≠ [] → (∀ x ∈ w, pyIsSpace x = false) →
    words w = [w] := by
  intro w
  induction w with
  | nil => intro h; exact absurd rfl h
  | cons x xs ih =>
    intro _ hns
    have hx : pyIsSpace x = false := hns x (List.mem_cons_self x xs)
    cases xs with
    | nil => simp [words, hx]
    | cons y ys =>
      have hy : pyIsSpace y = false :=
        hns y (List.mem_cons_of_mem x (List.mem_cons_self y ys))
      have hih := ih (by simp) (fun z hz => hns z (List.mem_cons_of_mem x hz))
      exact words_cons_cons_nonspace hx hy hih

theorem words_joinSpace : ∀ ws : List (List Char),
    (∀ w ∈ ws, w ≠ [] ∧ ∀ x ∈ w, pyIsSpace x = false) →
    words (joinSpace ws) = ws := by
  intro ws
  induction ws with
  | nil => intro _; rfl
  | cons w ws ih =>
    intro h
    obtain ⟨hne, hns⟩ := h w (List.mem_cons_self w ws)
    cases ws with
    | nil =>
      show words w = [w]
      exact words_no_sep w hne hns
    | cons w2 ws2 =>
      rw [joinSpace_cons_of_ne_nil (by simp) w, words_append_word w hne hns,
        ih (fun v hv => h v (List.mem_cons_of_mem w hv))]

theorem clean_textL_chars {l : List Char} :
    ∀ x ∈ clean_textL l,
      x = ' ' ∨ (x ∈ (l.map pyLower).filter keepChar ∧ pyIsSpace x = false) := by
  intro x hx
  rcases mem_joinSpace _ x hx with h | ⟨w, hw, hxw⟩
  · exact Or.inl h
  · obtain ⟨-, hchars⟩ := mem_words _ w hw
    exact Or.inr ⟨(hchars x hxw).1, (hchars x hxw).2⟩

theorem clean_textL_idem (l : List Char) : clean_textL (clean_textL l) = clean_textL l := by
  have hmap : (clean_textL l).map pyLower = clean_textL l := by
    have : ∀ x ∈ clean_textL l, pyLower x = id x := by
      intro x hx
      rcases clean_textL_chars x hx with rfl | ⟨hxu, -⟩
      · exact pyLower_space
      · obtain ⟨hxm, -⟩ := List.mem_filter.mp hxu
        obtain ⟨y, -, rfl⟩ := List.mem_map.mp hxm
        exact pyLower_idem y
    rw [List.map_congr_left this, List.map_id]
  have hfilter : (clean_textL l).filter keepChar = clean_textL l := by
    rw [List.filter_eq_self]
    intro x hx
    rcases clean_textL_chars x hx with rfl | ⟨hxu, -⟩
    · exact keepChar_space
    · exact (List.mem_filter.mp hxu).2
  show joinSpace (words (((clean_textL l).map pyLower).filter keepChar)) = clean_textL l
  rw [hmap, hfilter]
  show joinSpace (words (clean_textL l)) = clean_textL l
  unfold clean_textL
  rw [words_joinSpace _ (fun w hw =>
    ⟨(mem_words _ w hw).1, fun x hx => ((mem_words _ w hw).2 x hx).2⟩)]

theorem lev2_nil_right : ∀ a : List Char, lev2 a [] = a.length := by
  intro a
  cases a <;> simp [lev2]

theorem lev2_self : ∀ a : List Char, lev2 a a = 0 := by
  intro a
  induction a with
  | nil => simp [lev2]
  | cons x xs ih => simp [lev2, ih]

theorem lev2_comm_aux : ∀ (n : Nat) (a b : List Char), a.length + b.length ≤ n →
    lev2 a b = lev2 b a := by
  intro n
  induction n with
  | zero =>
    intro a b h
    have ha : a = [] := List.length_eq_zero.mp (by omega)
    have hb : b = [] := List.length_eq_zero.mp (by omega)
    subst ha; subst hb
    rfl
  | succ n ih =>
    intro a b h
    cases a with
    | nil => rw [lev2_nil_right]; simp [lev2]
    | cons x xs =>
      cases b with
      | nil => rw [lev2_nil_right]; simp [lev2]
      | cons y ys =>
        simp only [List.length_cons] at h
        have h1 : lev2 xs (y :: ys) = lev2 (y :: ys) xs := by
          apply ih; simp only [List.length_cons]; omega
        have h2 : lev2 (x :: xs) ys = lev2 ys (x :: xs) := by
          apply ih; simp only [List.length_cons]; omega
        have h3 : lev2 xs ys = lev2 ys xs := by
          apply ih; omega
        by_cases hxy : x = y
        · subst hxy
          simp [lev2, h3]
        · rw [show lev2 (x :: xs) (y :: ys) =
                min (1 + lev2 xs (y :: ys)) (min (1 + lev2 (x :: xs) ys) (2 + lev2 xs ys))
              from by simp [lev2, hxy],
            show lev2 (y :: ys) (x :: xs) =
                min (1 + lev2 ys (x :: xs)) (min (1 + lev2 (y :: ys) xs) (2 + lev2 ys xs))
              from by simp [lev2, Ne.symm hxy]]
          rw [h1, h2, h3]
          omega

theorem lev2_symm (a b : List Char) : lev2 a b = lev2 b a :=
  lev2_comm_aux (a.length + b.length) a b le_rfl

theorem lev2_le_sum : ∀ (n : Nat) (a b : List Char), a.length + b.length ≤ n →
    lev2 a b ≤ a.length + b.length := by
  intro n
  induction n with
  | zero =>
    intro a b h
    have ha : a = [] := List.length_eq_zero.mp (by omega)
    have hb : b = [] := List.length_eq_zero.mp (by omega)
    subst ha; subst hb
    simp [lev2]
  | succ n ih =>
    intro a b h
    cases a with
    | nil => simp [lev2]
    | cons x xs =>
      cases b with
      | nil => rw [lev2_nil_right]; simp
      | cons y ys =>
        simp only [List.length_cons] at h ⊢
        have h1 : lev2 xs (y :: ys) ≤ xs.length + (y :: ys).length := by
          apply ih; simp only [List.length_cons]; omega
        have h2 : lev2 (x :: xs) ys ≤ (x :: xs).length + ys.length := by
          apply ih; simp only [List.length_cons]; omega
        have h3 : lev2 xs ys ≤ xs.length + ys.length := by
          apply ih; omega
        simp only [List.length_cons] at h1 h2 h3
        by_cases hxy : x = y
        · subst hxy
          rw [show lev2 (x :: xs) (x :: ys) = lev2 xs ys from by simp [lev2]]
          omega
        · rw [show lev2 (x :: xs) (y :: ys) =
                min (1 + lev2 xs (y :: ys)) (min (1 + lev2 (x :: xs) ys) (2 + lev2 xs ys))
              from by simp [lev2, hxy]]
          omega

theorem fuzz_ratio_comm (a b : String) : fuzz_ratio a b = fuzz_ratio b a := by
  simp only [fuzz_ratio]
  rw [Nat.add_comm a.data.length b.data.length, lev2_symm a.data b.data]

theorem fuzz_ratio_self (x : String) : fuzz_ratio x x = 100 := by
  simp only [fuzz_ratio]
  by_cases h : x.data.length + x.data.length = 0
  · rw [if_pos h]
  · rw [if_neg h, lev2_self, Nat.sub_zero]
    have hL0 : 0 < x.data.length + x.data.length := Nat.pos_of_ne_zero h
    set L := x.data.length + x.data.length with hL
    have h2 : 200 * L + L = L + 2 * L * 100 := by ring
    rw [h2, Nat.add_mul_div_left _ _ (by omega : 0 < 2 * L),
      Nat.div_eq_of_lt (by omega : L < 2 * L)]

theorem fuzz_ratio_le_100 (a b : String) : fuzz_ratio a b ≤ 100 := by
  simp only [fuzz_ratio]
  by_cases h : a.data.length + b.data.length = 0
  · rw [if_pos h]
  · rw [if_neg h]
    have hL0 : 0 < a.data.length + b.data.length := Nat.pos_of_ne_zero h
    have hsub : a.data.length + b.data.length - lev2 a.data b.data ≤
        a.data.length + b.data.length := Nat.sub_le _ _
    exact Nat.lt_succ_iff.mp
      ((Nat.div_lt_iff_lt_mul (by omega)).mpr (by omega))

theorem lookupS_update_self : ∀ (st : Store) (sid : String) (s : UserSession),
    lookupS (updateS st sid s) sid = (lookupS st sid).map (fun _ => s) := by
  intro st sid s
  induction st with
  | nil => rfl
  | cons p rest ih =>
    obtain ⟨k, v⟩ := p
    by_cases hk : k = sid
    · simp [updateS, lookupS, hk]
    · simp [updateS, lookupS, hk, ih]

theorem lookupS_update_ne : ∀ (st : Store) {sid sid' : String} (s : UserSession),
    sid' ≠ sid → lookupS (updateS st sid s) sid' = lookupS st sid' := by
  intro st
  induction st with
  | nil => intro _ _ _ _; rfl
  | cons p rest ih =>
    intro sid sid' s hne
    obtain ⟨k, v⟩ := p
    by_cases hk : k = sid
    · have hk2 : ¬ k = sid' := fun hx => hne (hx.symm.trans hk)
      rw [show updateS ((k, v) :: rest) sid s = (k, s) :: updateS rest sid s from by
            simp [updateS, hk]]
      simp only [lookupS]
      rw [if_neg hk2, if_neg hk2, ih s hne]
    · rw [show updateS ((k, v) :: rest) sid s = (k, v) :: updateS rest sid s from by
            simp [updateS, hk]]
      simp only [lookupS]
      by_cases hk2 : k = sid'
      · rw [if_pos hk2, if_pos hk2]
      · rw [if_neg hk2, if_neg hk2, ih s hne]

theorem lookupS_update_cases {st : Store} {sid sid' : String} {s t : UserSession}
    (h : lookupS (updateS st sid s) sid' = some t) :
    t = s ∨ lookupS st sid' = some t := by
  by_cases he : sid' = sid
  · subst he
    rw [lookupS_update_self] at h
    cases hl : lookupS st sid' with
    | none => rw [hl] at h; exact absurd h (by simp)
    | some v =>
      rw [hl] at h
      simp only [Option.map_some'] at h
      exact Or.inl (Option.some.inj h).symm
  · exact Or.inr (by rwa [lookupS_update_ne st s he] at h)

theorem lookupS_append_cases : ∀ (st l2 : Store) (sid : String) (t : UserSession),
    lookupS (st ++ l2) sid = some t →
    lookupS st sid = some t ∨ lookupS l2 sid = some t := by
  intro st l2 sid t
  induction st with
  | nil => intro h; exact Or.inr h
  | cons p rest ih =>
    obtain ⟨k, v⟩ := p
    intro h
    by_cases hk : k = sid
    · rw [List.cons_append] at h
      simp only [lookupS, hk, if_true] at h ⊢
      exact Or.inl h
    · rw [List.cons_append] at h
      simp only [lookupS, hk, if_false] at h ⊢
      exact ih h

theorem stateDispatch_save {s : UserSession} (h1 : s.state = some "awaiting_original")
    (h2 : pyTruthy s.original_text = false) (m : String) :
    stateDispatch s m =
      ({ original_text := some m, state := some "awaiting_user_input" },
       { text := "Оригинальный текст сохранён. Теперь расскажите его, как вы запомнили.",
         end_session := false, buttons := none }) := by
  simp [stateDispatch, h1, h2]

theorem stateDispatch_already {s : UserSession} (h1 : s.state = some "awaiting_original")
    (h2 : pyTruthy s.original_text = true) (m : String) :
    stateDispatch s m =
      (s, { text := "Вы уже ввели оригинальный текст. Теперь расскажите его, как вы запомнили.",
            end_session := false, buttons := none }) := by
  simp [stateDispatch, h1, h2]

theorem stateDispatch_missing {s : UserSession} (h1 : s.state = some "awaiting_user_input")
    (h2 : pyTruthy s.original_text = false) (m : String) :
    stateDispatch s m =
      (s, { text := "Ошибка: Оригинальный текст не найден. Введите текст заново.",
            end_session := false, buttons := none }) := by
  simp [stateDispatch, h1, h2]

theorem stateDispatch_sim {s : UserSession} (h1 : s.state = some "awaiting_user_input")
    (h2 : pyTruthy s.original_text = true) (m : String) :
    stateDispatch s m =
      (s, { text := "Процент совпадения: " ++
              toString (fuzz_ratio (clean_text (s.original_text.getD "")) (clean_text m)) ++
              "%\n\n" ++ "Оригинальный текст: " ++ s.original_text.getD "" ++ "\n\n" ++
              "Ваш текст: " ++ m,
            end_session := false,
            buttons := some [{ title := "Сбросить", action_type := "text",
                               label := "Сбросить" }] }) := by
  simp [stateDispatch, h1, h2]

theorem stateDispatch_unknown {s : UserSession} (h1 : s.state ≠ some "awaiting_original")
    (h2 : s.state ≠ some "awaiting_user_input") (m : String) :
    stateDispatch s m =
      (s, { text := "Произошла ошибка. Попробуйте снова.",
            end_session := false, buttons := none }) := by
  simp [stateDispatch, h1, h2]

theorem handler_empty_msg {um : String} (h : pyStrip um = "") (st : Store) (sid : String) :
    handler st sid um =
      (st, { text := "Введите текст для продолжения.", end_session := false, buttons := none }) := by
  simp [handler, h]

theorem handler_found {st : Store} {sid : String} {s : UserSession}
    (h : lookupS st sid = some s) {um : String} (hm : pyStrip um ≠ "") :
    handler st sid um =
      (updateS st sid (stateDispatch s (pyStrip um)).1, (stateDispatch s (pyStrip um)).2) := by
  simp [handler, h, hm]

theorem handler_fresh {st : Store} {sid : String} (h : lookupS st sid = none)
    {um : String} (hm : pyStrip um ≠ "") :
    handler st sid um =
      (st ++ [(sid, { original_text := none, state := some "awaiting_original" })],
       { text := "Произошла ошибка. Попробуйте снова.", end_session := false, buttons := none }) := by
  simp [handler, h, hm, stateDispatch, insertDefaults]

theorem reset_found {st : Store} {sid : String} {s : UserSession}
    (h : lookupS st sid = some s) :
    reset st sid =
      (updateS st sid { original_text := none, state := some "awaiting_original" },
       { text := "Данные сброшены. Введите новый текст.", end_session := false, buttons := none }) := by
  simp [reset, h]

theorem reset_missing {st : Store} {sid : String} (h : lookupS st sid = none) :
    reset st sid =
      (st, { text := "Сессия не найдена. Введите новый текст.", end_session := false,
             buttons := none }) := by
  simp [reset, h]

/-- The data-model invariant of spec §3 for one session record. -/
def sessionInv (s : UserSession) : Prop :=
  s.original_text.isSome = true ↔ s.state = some "awaiting_user_input"

theorem stateDispatch_inv {s : UserSession} (h : sessionInv s) (m : String) :
    sessionInv (stateDispatch s m).1 := by
  by_cases h1 : s.state = some "awaiting_original"
  · by_cases h2 : pyTruthy s.original_text
    · rw [stateDispatch_already h1 h2 m]
      exact h
    · rw [stateDispatch_save h1 (Bool.eq_false_iff.mpr h2) m]
      simp [sessionInv]
  · by_cases h1b : s.state = some "awaiting_user_input"
    · by_cases h2 : pyTruthy s.original_text
      · rw [stateDispatch_sim h1b h2 m]
        exact h
      · rw [stateDispatch_missing h1b (Bool.eq_false_iff.mpr h2) m]
        exact h
    · rw [stateDispatch_unknown h1 h1b m]
      exact h

theorem handler_preserves_inv {st : Store}
    (hst : ∀ sid0 s0, lookupS st sid0 = some s0 → sessionInv s0) (sid msg : String) :
    ∀ sid0 s0, lookupS (handler st sid msg).1 sid0 = some s0 → sessionInv s0 := by
  intro sid0 s0 h0
  by_cases hm : pyStrip msg = ""
  · rw [handler_empty_msg hm st sid] at h0
    exact hst _ _ h0
  · cases hl : lookupS st sid with
    | some s =>
      rw [handler_found hl hm] at h0
      rcases lookupS_update_cases h0 with rfl | hrest
      · exact stateDispatch_inv (hst _ _ hl) (pyStrip msg)
      · exact hst _ _ hrest
    | none =>
      rw [handler_fresh hl hm] at h0
      rcases lookupS_append_cases _ _ _ _ h0 with h | h
      · exact hst _ _ h
      · simp only [lookupS] at h
        by_cases hs : sid = sid0
        · rw [if_pos hs] at h
          cases h
          simp [sessionInv]
        · rw [if_neg hs] at h
          exact absurd h (by simp)

theorem reset_preserves_inv {st : Store}
    (hst : ∀ sid0 s0, lookupS st sid0 = some s0 → sessionInv s0) (sid : String) :
    ∀ sid0 s0, lookupS (reset st sid).1 sid0 = some s0 → sessionInv s0 := by
  intro sid0 s0 h0
  cases hl : lookupS st sid with
  | some s =>
    rw [reset_found hl] at h0
    rcases lookupS_update_cases h0 with rfl | hrest
    · simp [sessionInv]
    · exact hst _ _ hrest
  | none =>
    rw [reset_missing hl] at h0
    exact hst _ _ h0

theorem reachable_inv {st : Store} (hr : Reachable st) :
    ∀ sid s, lookupS st sid = some s → sessionInv s := by
  induction hr with
  | empty => intro sid s h; exact absurd h (by simp [lookupS])
  | step_handler sid msg _ ih => exact handler_preserves_inv ih sid msg
  | step_reset sid _ ih => exact reset_preserves_inv ih sid

/-- Claim C1 (evaluation at the failing input): the claim says the first POST
to `/handler` for a fresh session stores the message verbatim, moves the
session to `awaiting_user_input` and answers with the saved-confirmation.
The code instead constructs the session with `state = none` (the column
default is applied only at INSERT), so the dispatch falls into the
unknown-state branch: the response is the generic error text and the
persisted row has `state = awaiting_original` with `original_text` unset. -/
theorem handler_first_post_fresh_eval :
    handler [] "s1" "The quick fox" =
      ([("s1", { original_text := none, state := some "awaiting_original" })],
       { text := "Произошла ошибка. Попробуйте снова.", end_session := false,
         buttons := none }) := by
  decide

/-- Claim C2: in every store reachable from the empty store by `/handler` and
`/reset` requests, every stored session satisfies `original_text` is non-null
iff `state = awaiting_user_input`. -/
theorem store_invariant_reachable (st : Store) (h : Reachable st) (sid : String)
    (s : UserSession) (hl : lookupS st sid = some s) :
    s.original_text.isSome = true ↔ s.state = some "awaiting_user_input" :=
  reachable_inv h sid s hl

/-- Witness for C2 at the store produced by one `/handler` request on the
empty store. -/
theorem store_invariant_reachable_witness :
    ((none : Option String).isSome = true ↔
      (some "awaiting_original" : Option String) = some "awaiting_user_input") :=
  store_invariant_reachable (handler [] "s1" "hi").1
    (Reachable.step_handler "s1" "hi" Reachable.empty) "s1"
    { original_text := none, state := some "awaiting_original" } (by decide)

/-- Claim C3: for a session in state `awaiting_user_input` whose
`original_text` is set (truthy), a non-empty message yields the
similarity response (percentage, original verbatim, the user's text, one
`text`-action button) and no store mutation; and `buttons` is non-`none`
only in this branch of `/handler`, never in `/reset`. -/
theorem handler_similarity_branch :
    (∀ (st : Store) (sid um : String) (s : UserSession),
      lookupS st sid = some s → s.state = some "awaiting_user_input" →
      pyTruthy s.original_text = true → pyStrip um ≠ "" →
      (handler st sid um).2 =
        { text := "Процент совпадения: " ++
            toString (fuzz_ratio (clean_text (s.original_text.getD ""))
              (clean_text (pyStrip um))) ++ "%\n\n" ++
            "Оригинальный текст: " ++ s.original_text.getD "" ++ "\n\n" ++
            "Ваш текст: " ++ pyStrip um,
          end_session := false,
          buttons := some [{ title := "Сбросить", action_type := "text",
                             label := "Сбросить" }] } ∧
      ∀ sid' : String, lookupS (handler st sid um).1 sid' = lookupS st sid') ∧
    (∀ (st : Store) (sid um : String),
      (handler st sid um).2.buttons ≠ none →
      ∃ s, lookupS st sid = some s ∧ s.state = some "awaiting_user_input" ∧
        pyTruthy s.original_text = true) ∧
    (∀ (st : Store) (sid : String), (reset st sid).2.buttons = none) := by
  refine ⟨?_, ?_, ?_⟩
  · intro st sid um s hl hstate horig hm
    have hd := stateDispatch_sim hstate horig (pyStrip um)
    constructor
    · rw [handler_found hl hm, hd]
    · intro sid'
      rw [handler_found hl hm, hd]
      show lookupS (updateS st sid s) sid' = lookupS st sid'
      by_cases hs : sid' = sid
      · subst hs
        rw [lookupS_update_self, hl]
        rfl
      · exact lookupS_update_ne st s hs
  · intro st sid um hb
    by_cases hm : pyStrip um = ""
    · rw [handler_empty_msg hm st sid] at hb
      exact absurd rfl hb
    · cases hl : lookupS st sid with
      | none =>
        rw [handler_fresh hl hm] at hb
        exact absurd rfl hb
      | some s =>
        by_cases h1 : s.state = some "awaiting_original"
        · by_cases h2 : pyTruthy s.original_text
          · rw [handler_found hl hm, stateDispatch_already h1 h2] at hb
            exact absurd rfl hb
          · rw [handler_found hl hm,
              stateDispatch_save h1 (Bool.eq_false_iff.mpr h2)] at hb
            exact absurd rfl hb
        · by_cases h1b : s.state = some "awaiting_user_input"
          · by_cases h2 : pyTruthy s.original_text
            · exact ⟨s, rfl, h1b, h2⟩
            · rw [handler_found hl hm,
                stateDispatch_missing h1b (Bool.eq_false_iff.mpr h2)] at hb
              exact absurd rfl hb
          · rw [handler_found hl hm, stateDispatch_unknown h1 h1b] at hb
            exact absurd rfl hb
  · intro st sid
    cases hl : lookupS st sid with
    | some s => rw [reset_found hl]
    | none => rw [reset_missing hl]

/-- Witness for C3 on a concrete one-session store with an identical
retelling. -/
theorem handler_similarity_branch_witness :
    (handler [("s1", { original_text := some "кот", state := some "awaiting_user_input" })]
        "s1" "кот").2 =
      { text := "Процент совпадения: " ++
          toString (fuzz_ratio (clean_text "кот") (clean_text "кот")) ++ "%\n\n" ++
          "Оригинальный текст: " ++ "кот" ++ "\n\n" ++ "Ваш текст: " ++ "кот",
        end_session := false,
        buttons := some [{ title := "Сбросить", action_type := "text",
                           label := "Сбросить" }] } :=
  (handler_similarity_branch.1
    [("s1", { original_text := some "кот", state := some "awaiting_user_input" })]
    "s1" "кот" { original_text := some "кот", state := some "awaiting_user_input" }
    rfl rfl (by decide) (by decide)).1

/-- Claim C4: `/reset` on an existing session clears `original_text`, sets the
state back to `awaiting_original`, leaves other sessions alone and confirms;
on a missing session it answers "session not found" and leaves the store
literally unchanged (no record created). -/
theorem reset_endpoint_behavior :
    (∀ (st : Store) (sid : String) (s : UserSession), lookupS st sid = some s →
      (reset st sid).2 =
        { text := "Данные сброшены. Введите новый текст.", end_session := false,
          buttons := none } ∧
      lookupS (reset st sid).1 sid =
        some { original_text := none, state := some "awaiting_original" } ∧
      ∀ sid' : String, sid' ≠ sid → lookupS (reset st sid).1 sid' = lookupS st sid') ∧
    (∀ (st : Store) (sid : String), lookupS st sid = none →
      reset st sid =
        (st, { text := "Сессия не найдена. Введите новый текст.", end_session := false,
               buttons := none })) := by
  constructor
  · intro st sid s hl
    refine ⟨by rw [reset_found hl], ?_, ?_⟩
    · rw [reset_found hl]
      show lookupS (updateS st sid _) sid = _
      rw [lookupS_update_self, hl]
      rfl
    · intro sid' hne
      rw [reset_found hl]
      exact lookupS_update_ne st _ hne
  · intro st sid hl
    exact reset_missing hl

/-- Witness for C4: resetting an existing session rewrites its record, and
resetting a missing session returns the not-found response with the store
unchanged. -/
theorem reset_endpoint_behavior_witness :
    (lookupS (reset [("s1", { original_text := some "т", state := some "awaiting_user_input" })]
        "s1").1 "s1" = some { original_text := none, state := some "awaiting_original" }) ∧
    reset ([] : Store) "s2" =
      ([], { text := "Сессия не найдена. Введите новый текст.", end_session := false,
             buttons := none }) :=
  ⟨((reset_endpoint_behavior.1
      [("s1", { original_text := some "т", state := some "awaiting_user_input" })] "s1"
      { original_text := some "т", state := some "awaiting_user_input" } rfl).2).1,
   reset_endpoint_behavior.2 [] "s2" rfl⟩

/-- Claim C5: on a fresh session id with a non-empty message, the freshly
constructed session object has `state = none` (the column default applies
only at row write), so the dispatch falls through to the unknown-state
branch: the response is the generic error text while the committed row has
`state = awaiting_original` and `original_text` unset. -/
theorem handler_fresh_unknown_state (st : Store) (sid um : String)
    (h : lookupS st sid = none) (hm : pyStrip um ≠ "") :
    handler st sid um =
      (st ++ [(sid, { original_text := none, state := some "awaiting_original" })],
       { text := "Произошла ошибка. Попробуйте снова.", end_session := false,
         buttons := none }) :=
  handler_fresh h hm

/-- Witness for C5 on the empty store. -/
theorem handler_fresh_unknown_state_witness :
    lookupS ([] : Store) "s2" = none ∧ pyStrip "hello" ≠ "" ∧
    handler [] "s2" "hello" =
      ([("s2", { original_text := none, state := some "awaiting_original" })],
       { text := "Произошла ошибка. Попробуйте снова.", end_session := false,
         buttons := none }) :=
  ⟨rfl, by decide, handler_fresh_unknown_state [] "s2" "hello" rfl (by decide)⟩

/-- Claim C6: a message that is empty after stripping makes `/handler` answer
the prompt-for-input text with `end_session = false` and no buttons, leaving
the store literally unchanged. -/
theorem handler_empty_message (st : Store) (sid um : String) (h : pyStrip um = "") :
    handler st sid um =
      (st, { text := "Введите текст для продолжения.", end_session := false,
             buttons := none }) :=
  handler_empty_msg h st sid

/-- Witness for C6 with a whitespace-only message. -/
theorem handler_empty_message_witness :
    pyStrip "   " = "" ∧
    handler [("s7", { original_text := some "x", state := some "awaiting_user_input" })]
        "s7" "   " =
      ([("s7", { original_text := some "x", state := some "awaiting_user_input" })],
       { text := "Введите текст для продолжения.", end_session := false,
         buttons := none }) :=
  ⟨by decide,
   handler_empty_message
     [("s7", { original_text := some "x", state := some "awaiting_user_input" })]
     "s7" "   " (by decide)⟩

/-- Claim C7: a session in state `awaiting_user_input` with unset (falsy)
`original_text` makes `/handler` answer the data-integrity diagnostic with no
buttons and perform no store mutation; the error is a normal response, not a
crash. -/
theorem handler_integrity_violation (st : Store) (sid um : String) (s : UserSession)
    (hl : lookupS st sid = some s) (hstate : s.state = some "awaiting_user_input")
    (horig : pyTruthy s.original_text = false) (hm : pyStrip um ≠ "") :
    (handler st sid um).2 =
      { text := "Ошибка: Оригинальный текст не найден. Введите текст заново.",
        end_session := false, buttons := none } ∧
    ∀ sid' : String, lookupS (handler st sid um).1 sid' = lookupS st sid' := by
  have hd := stateDispatch_missing hstate horig (pyStrip um)
  constructor
  · rw [handler_found hl hm, hd]
  · intro sid'
    rw [handler_found hl hm, hd]
    show lookupS (updateS st sid s) sid' = lookupS st sid'
    by_cases hs : sid' = sid
    · subst hs
      rw [lookupS_update_self, hl]
      rfl
    · exact lookupS_update_ne st s hs

/-- Witness for C7 on a store violating the §3 invariant. -/
theorem handler_integrity_violation_witness :
    (handler [("s1", { original_text := none, state := some "awaiting_user_input" })]
        "s1" "hi").2 =
      { text := "Ошибка: Оригинальный текст не найден. Введите текст заново.",
        end_session := false, buttons := none } :=
  (handler_integrity_violation
    [("s1", { original_text := none, state := some "awaiting_user_input" })] "s1" "hi"
    { original_text := none, state := some "awaiting_user_input" }
    rfl rfl rfl (by decide)).1

/-- Claim C8: the text normalizer is idempotent. -/
theorem clean_text_idempotent (s : String) : clean_text (clean_text s) = clean_text s :=
  congrArg String.mk (clean_textL_idem s.data)

/-- Claim C9: the normalizer equals the spec reference definition (lowercase,
keep alphanumeric/whitespace, collapse whitespace runs to single ASCII
spaces, trim), and in particular maps "Hello, World!" to "hello world". -/
theorem clean_text_matches_spec :
    (∀ s : String, clean_text s = normalizeSpec s) ∧
    clean_text "Hello, World!" = "hello world" := by
  refine ⟨fun s => congrArg String.mk ?_, by decide⟩
  exact joinSpace_words_eq ((s.data.map pyLower).filter keepChar).length _ le_rfl

/-- Claim C10: the similarity scorer is symmetric on normalized inputs,
scores identical strings 100, and always lands in [0, 100]. -/
theorem similarity_symmetric_and_bounded :
    (∀ a b : String,
      fuzz_ratio (clean_text a) (clean_text b) = fuzz_ratio (clean_text b) (clean_text a)) ∧
    (∀ x : String, fuzz_ratio x x = 100) ∧
    (∀ a b : String, fuzz_ratio a b ≤ 100) :=
  ⟨fun a b => fuzz_ratio_comm (clean_text a) (clean_text b),
   fuzz_ratio_self, fuzz_ratio_le_100⟩
